import Mathlib

set_option maxHeartbeats 1000000

namespace Dendrite

/-!
Verification development for the dendrite key server subsystem.

The key server stores device identity keys and one-time prekeys and
publishes an append-only, partition-offset-addressed key change log.
Components whose Go sources are not part of this tree (the key change
log, one-time key store, device key store and the repartitioning
migration) are modelled from the specification; the database
constructor `NewDatabase` and the password login flow
`LoginTypePassword.Login` are embedded from their Go sources.
-/

/-! ## Key Change Log (spec section 4.5) -/

/-- Modelled from the spec: the Key Change Log is an append-only journal
partitioned by topic, where each partition has its own strictly
increasing, gapless offset sequence.  The next offset for a partition is
kept in a durable counter row that is read-modified-written in the same
transaction as the append (spec sections 4.5 and 9). -/
structure KeyChangeLog where
  nextOffset : String → Nat
  entries : String → List (Nat × String)

/-- Modelled from the spec: a freshly created log has no entries and no
allocated offsets in any partition. -/
def emptyKeyChangeLog : KeyChangeLog :=
  { nextOffset := fun _ => 0, entries := fun _ => [] }

/-- Modelled from the spec: `Append(partition, userID) -> offset`
allocates the next offset for the partition by reading and incrementing
the durable counter and appends the entry; offsets are allocated
starting from 1 so that a read from offset 0 returns every entry. -/
def appendKeyChange (st : KeyChangeLog) (partition userID : String) :
    Nat × KeyChangeLog :=
  let off := st.nextOffset partition + 1
  (off,
   { nextOffset := fun p => if p = partition then off else st.nextOffset p
     entries := fun p =>
       if p = partition then st.entries p ++ [(off, userID)] else st.entries p })

/-- Folds a sequence of successful appends over a log state. -/
def appendAll (st : KeyChangeLog) (ops : List (String × String)) : KeyChangeLog :=
  ops.foldl (fun s op => (appendKeyChange s op.1 op.2).2) st

/-- Modelled from the spec: `ReadSince(partition, offset)` returns the
entries of the partition whose offset is strictly greater than the given
value, in ascending order. -/
def readSince (st : KeyChangeLog) (partition : String) (off : Nat) :
    List (Nat × String) :=
  (st.entries partition).filter (fun e => off < e.1)

/-! ## One-Time Key Store (spec section 4.2) -/

/-- Modelled from the spec: the One-Time Key Store holds claimable
single-use prekeys, addressed by (userID, deviceID, algorithm); each
tuple maps to its remaining list of (keyID, keyJSON) pairs. -/
structure OneTimeKeyStore where
  keys : String × String × String → List (String × String)

/-- Modelled from the spec: `ClaimOneTimeKeys(userID, deviceID,
algorithm)` selects one arbitrary remaining key for the tuple, deletes
it and returns it, atomically; if none remain it returns empty (not an
error) and leaves the store untouched. -/
def claimOneTimeKeys (st : OneTimeKeyStore) (userID deviceID algorithm : String) :
    Option (String × String) × OneTimeKeyStore :=
  match st.keys (userID, deviceID, algorithm) with
  | [] => (none, st)
  | k :: rest =>
    (some k,
     { keys := fun t => if t = (userID, deviceID, algorithm) then rest else st.keys t })

/-- Runs `n` claim calls for the same tuple one after the other; the
transaction isolation required by the spec serializes concurrent claims,
so any interleaving of `n` concurrent claims is equivalent to this
sequential execution. -/
def claimRepeatedly (userID deviceID algorithm : String) :
    Nat → OneTimeKeyStore → List (Option (String × String)) × OneTimeKeyStore
  | 0, st => ([], st)
  | n + 1, st =>
    let r := claimOneTimeKeys st userID deviceID algorithm
    let rs := claimRepeatedly userID deviceID algorithm n r.2
    (r.1 :: rs.1, rs.2)

/-! ## Device Key Store with change log (spec sections 4.1, 4.5, 4.6) -/

/-- Partition of the key change log that receives local device key
changes. -/
def keyChangePartition : String := "local"

/-- Modelled from the spec: combined state of the Device Key Store and
the Key Change Log.  Each (userID, deviceID) maps to its published
(keyJSON, displayName, streamID) bundle; `streamIDCounter` is the
per-user monotonically increasing version counter. -/
structure KeyDatabase where
  deviceKeys : String × String → Option (String × String × Nat)
  streamIDCounter : String → Nat
  keyChanges : KeyChangeLog

/-- Modelled from the spec: the mutating path of an upsert, used when
the stored content differs from the uploaded content.  It allocates the
next streamID for the user, stores the bundle and appends one KeyChange
entry for the user in the same transaction. -/
def upsertFresh (st : KeyDatabase) (userID deviceID keyJSON displayName : String) :
    Nat × KeyDatabase :=
  let sid := st.streamIDCounter userID + 1
  (sid,
   { deviceKeys := fun t =>
       if t = (userID, deviceID) then some (keyJSON, displayName, sid)
       else st.deviceKeys t
     streamIDCounter := fun u => if u = userID then sid else st.streamIDCounter u
     keyChanges := (appendKeyChange st.keyChanges keyChangePartition userID).2 })

/-- Modelled from the spec: `UpsertDeviceKeys(userID, deviceID, keyJSON,
displayName) -> streamID` is idempotent on identical content (a no-op
when the stored bundle is unchanged); on change it allocates the next
streamID for the user, returns it and appends one change-log entry. -/
def upsertDeviceKeys (st : KeyDatabase) (userID deviceID keyJSON displayName : String) :
    Nat × KeyDatabase :=
  match st.deviceKeys (userID, deviceID) with
  | some (kj0, dn0, sid0) =>
    if kj0 = keyJSON ∧ dn0 = displayName then (sid0, st)
    else upsertFresh st userID deviceID keyJSON displayName
  | none => upsertFresh st userID deviceID keyJSON displayName

/-- Modelled from the spec: `DeleteDeviceKeys(userID, deviceID)` removes
the device key row and, when key material was actually removed, appends
one KeyChange entry for the user in the same transaction. -/
def deleteDeviceKeys (st : KeyDatabase) (userID deviceID : String) : KeyDatabase :=
  match st.deviceKeys (userID, deviceID) with
  | none => st
  | some _ =>
    { deviceKeys := fun t => if t = (userID, deviceID) then none else st.deviceKeys t
      streamIDCounter := st.streamIDCounter
      keyChanges := (appendKeyChange st.keyChanges keyChangePartition userID).2 }

/-- Outcome of a compound store transaction. -/
inductive TxnOutcome where
  | commit
  | abort
deriving DecidableEq

/-- Modelled from the spec: a compound key-mutation-plus-log-append
transaction executes against a private working copy of the database and
publishes it atomically on commit; an abort (for any reason, including
a simulated failure after the key mutation but before commit) discards
the working copy, so the visible state is unchanged. -/
def runKeyMutationTxn (st : KeyDatabase) (mutation : KeyDatabase → KeyDatabase) :
    TxnOutcome → KeyDatabase
  | TxnOutcome.commit => mutation st
  | TxnOutcome.abort => st

/-! ## Key change log repartitioning migration (spec sections 4.5, 4.6, 9) -/

/-- Modelled from the spec: database state seen by the repartitioning
schema delta registered by `LoadRefactorKeyChanges`.  `legacyLog` is the
older single global log (user IDs in commit order), `partitionedLog` the
rewritten per-partition scheme, and `applied` the migration tracking
table entry that records whether this delta has already run. -/
structure MigrationState where
  legacyLog : List String
  partitionedLog : List (Nat × String)
  applied : Bool
deriving DecidableEq

/-- Modelled from the spec: the repartitioning delta rewrites the legacy
rows into the partitioned scheme, preserving relative order and dropping
nothing, assigning fresh gapless offsets; the delta is transactional and
tracked, so it runs exactly once across restarts and re-running it is a
no-op. -/
def refactorKeyChanges (st : MigrationState) : MigrationState :=
  if st.applied then st
  else
    { legacyLog := []
      partitionedLog := st.legacyLog.enum.map (fun e => (e.1 + 1, e.2))
      applied := true }

/-! ## Database construction (src/keyserver/storage/postgres/storage.go) -/

/-- Shared database handle produced by `NewDatabase`, embedding
`shared.Database` with its table handles.  The database handle type and
the table handle type are abstract. -/
structure SharedDatabase (DB T : Type) where
  db : DB
  oneTimeKeysTable : T
  deviceKeysTable : T
  keyChangesTable : T
  staleDeviceListsTable : T
  crossSigningKeysTable : T
  crossSigningSigsTable : T

/-- Embedding of `NewDatabase` from
src/keyserver/storage/postgres/storage.go.  Each fallible step of the Go
function is a parameter returning `Except`; the Go control flow returns
the first error and otherwise assembles the shared database handle.
`runDeltas` stands for `m.RunDeltas(db, dbProperties)` on the migration
set loaded by `deltas.LoadRefactorKeyChanges(m)`. -/
def NewDatabase {E DB T : Type}
    (sqlutilOpen : Except E DB)
    (newOneTimeKeysTable newDeviceKeysTable newKeyChangesTable
      newStaleDeviceListsTable newCrossSigningKeysTable
      newCrossSigningSigsTable : DB → Except E T)
    (runDeltas : DB → Except E Unit)
    (keyChangesPrepare : T → Except E Unit)
    (partitionOffsetsPrepare : DB → Except E Unit) :
    Except E (SharedDatabase DB T) :=
  match sqlutilOpen with
  | Except.error e => Except.error e
  | Except.ok db =>
    match newOneTimeKeysTable db with
    | Except.error e => Except.error e
    | Except.ok otk =>
      match newDeviceKeysTable db with
      | Except.error e => Except.error e
      | Except.ok dk =>
        match newKeyChangesTable db with
        | Except.error e => Except.error e
        | Except.ok kc =>
          match newStaleDeviceListsTable db with
          | Except.error e => Except.error e
          | Except.ok sdl =>
            match newCrossSigningKeysTable db with
            | Except.error e => Except.error e
            | Except.ok csk =>
              match newCrossSigningSigsTable db with
              | Except.error e => Except.error e
              | Except.ok css =>
                match runDeltas db with
                | Except.error e => Except.error e
                | Except.ok _ =>
                  match keyChangesPrepare kc with
                  | Except.error e => Except.error e
                  | Except.ok _ =>
                    match partitionOffsetsPrepare db with
                    | Except.error e => Except.error e
                    | Except.ok _ =>
                      Except.ok ⟨db, otk, dk, kc, sdl, csk, css⟩

/-! ## Password login (src/clientapi/auth/password.go)

Character strings from the Go source are modelled as lists of Unicode
code points. -/

/-- Embedding of `strings.ToLower` restricted to the ASCII letters it
maps: an upper-case code point (65..90) is shifted to its lower-case
counterpart, every other code point is unchanged. -/
def asciiToLower (c : Nat) : Nat :=
  if 65 ≤ c ∧ c ≤ 90 then c + 32 else c

/-- Embedding of `strings.ToLower` on a whole string. -/
def strToLower (s : List Nat) : List Nat := s.map asciiToLower

/-- Code point of the commercial at sign used as the user ID sigil. -/
def atSign : Nat := 64

/-- Code point of the colon separating localpart and domain. -/
def colonChar : Nat := 58

/-- Embedding of `gomatrixserverlib.SplitID`: requires the leading
sigil, splits the remainder at the first colon into localpart and
domain, and fails when the sigil or the colon is missing. -/
def splitID (sigil : Nat) (id : List Nat) : Except String (List Nat × List Nat) :=
  match id with
  | [] => Except.error "invalid ID"
  | c :: rest =>
    if c = sigil then
      if rest.contains colonChar then
        Except.ok
          (rest.takeWhile (fun x => x ≠ colonChar),
           (rest.dropWhile (fun x => x ≠ colonChar)).tail)
      else Except.error "invalid ID: missing colon"
    else Except.error "invalid ID: wrong sigil"

/-- Embedding of `userutil.ParseUsernameParam`: when the username starts
with the at sigil it is split into localpart and domain and the domain
must equal the expected server name; otherwise the whole username is the
localpart. -/
def parseUsernameParam (usernameParam : List Nat) (expectedServerName : List Nat) :
    Except String (List Nat) :=
  if usernameParam.head? = some atSign then
    match splitID atSign usernameParam with
    | Except.error _ => Except.error "invalid username"
    | Except.ok (localpart, domain) =>
      if domain = expectedServerName then Except.ok localpart
      else Except.error "user ID does not belong to this server"
  else Except.ok usernameParam

/-- Embedding of `util.JSONResponse` restricted to the fields the login
flow produces: HTTP status code plus the matrix error code and message
of the JSON body. -/
structure JSONResponse where
  code : Nat
  errcode : String
  err : String
deriving DecidableEq

/-- Result of one `GetAccountByPassword` call: an account was found, the
lookup reported `sql.ErrNoRows`, or it reported some other error (such
as a password hash mismatch). -/
inductive AccountResult where
  | ok
  | errNoRows
  | errOther
deriving DecidableEq

/-- Result of `LoginTypePassword.Login`: either the login succeeds or a
JSON error response is returned. -/
inductive LoginResult where
  | success
  | failure (resp : JSONResponse)
deriving DecidableEq

/-- The response produced by `jsonerror.Forbidden` in the failing login
path of src/clientapi/auth/password.go. -/
def forbiddenResponse : JSONResponse :=
  { code := 403
    errcode := "M_FORBIDDEN"
    err := "The username or password was incorrect or the account does not exist." }

/-- Embedding of `LoginTypePassword.Login` from
src/clientapi/auth/password.go: the username is lowercased, rejected if
empty, parsed into a localpart; the account is looked up with the
lowercased localpart, with a fallback lookup using the localpart as
parsed when the first lookup reports `sql.ErrNoRows`; any remaining
failure yields the single Forbidden response. -/
def loginTypePassword (serverName : List Nat)
    (getAccountByPassword : List Nat → List Nat → AccountResult)
    (reqUsername reqPassword : List Nat) : LoginResult :=
  let username := strToLower reqUsername
  if username = [] then
    LoginResult.failure
      { code := 401, errcode := "M_BAD_JSON", err := "A username must be supplied." }
  else
    match parseUsernameParam username serverName with
    | Except.error msg =>
      LoginResult.failure { code := 401, errcode := "M_INVALID_USERNAME", err := msg }
    | Except.ok localpart =>
      match getAccountByPassword (strToLower localpart) reqPassword with
      | AccountResult.ok => LoginResult.success
      | AccountResult.errNoRows =>
        match getAccountByPassword localpart reqPassword with
        | AccountResult.ok => LoginResult.success
        | AccountResult.errNoRows => LoginResult.failure forbiddenResponse
        | AccountResult.errOther => LoginResult.failure forbiddenResponse
      | AccountResult.errOther => LoginResult.failure forbiddenResponse

/-! ## Lemmas about the key change log -/

/-- Invariant: in every partition the entry offsets are exactly the
contiguous range from 1 to the partition counter. -/
def OffsetsContiguous (st : KeyChangeLog) : Prop :=
  ∀ p, (st.entries p).map Prod.fst = List.range' 1 (st.nextOffset p)

theorem offsetsContiguous_empty : OffsetsContiguous emptyKeyChangeLog := by
  intro p
  simp [emptyKeyChangeLog]

theorem offsetsContiguous_append (st : KeyChangeLog) (q u : String)
    (h : OffsetsContiguous st) : OffsetsContiguous (appendKeyChange st q u).2 := by
  intro p
  by_cases hp : p = q
  · subst hp
    simp only [appendKeyChange, eq_self_iff_true, if_true, List.map_append,
      List.map_cons, List.map_nil, h p]
    rw [List.range'_1_concat]
    simp [Nat.add_comm]
  · simp only [appendKeyChange, if_neg hp]
    exact h p

theorem offsetsContiguous_appendAll (ops : List (String × String)) :
    ∀ st : KeyChangeLog, OffsetsContiguous st → OffsetsContiguous (appendAll st ops) := by
  induction ops with
  | nil => intro st h; exact h
  | cons op rest ih =>
    intro st h
    exact ih _ (offsetsContiguous_append st op.1 op.2 h)

theorem entries_length_eq_nextOffset (st : KeyChangeLog) (h : OffsetsContiguous st)
    (p : String) : (st.entries p).length = st.nextOffset p := by
  have := congrArg List.length (h p)
  simpa using this

theorem offset_pos_of_mem (st : KeyChangeLog) (h : OffsetsContiguous st) (p : String)
    (e : Nat × String) (he : e ∈ st.entries p) : 1 ≤ e.1 := by
  have hm : e.1 ∈ (st.entries p).map Prod.fst := List.mem_map_of_mem Prod.fst he
  rw [h p] at hm
  exact (List.mem_range'_1.mp hm).1

/-- Splitting a list whose offsets form a contiguous range at a bound:
the entries at or below the bound followed by the entries above it give
back the whole list. -/
theorem filter_le_append_filter_gt :
    ∀ (l : List (Nat × String)) (s N : Nat), l.map Prod.fst = List.range' s l.length →
      l.filter (fun e => e.1 ≤ N) ++ l.filter (fun e => N < e.1) = l := by
  intro l
  induction l with
  | nil => intro s N _; simp
  | cons e t ih =>
    intro s N h
    simp only [List.map_cons, List.length_cons, List.range'_succ, List.cons.injEq] at h
    obtain ⟨he, ht⟩ := h
    by_cases hN : e.1 ≤ N
    · have hnot : ¬ N < e.1 := Nat.not_lt.mpr hN
      rw [List.filter_cons_of_pos (by simpa using hN),
        List.filter_cons_of_neg (by simpa using hnot), List.cons_append]
      exact congrArg (e :: ·) (ih (s + 1) N ht)
    · have hlt : N < e.1 := Nat.lt_of_not_le hN
      have hall : ∀ x ∈ t, N < x.1 := by
        intro x hx
        have hm : x.1 ∈ t.map Prod.fst := List.mem_map_of_mem Prod.fst hx
        rw [ht] at hm
        have := (List.mem_range'_1.mp hm).1
        omega
      have h1 : t.filter (fun e => e.1 ≤ N) = [] := by
        rw [List.filter_eq_nil_iff]
        intro x hx
        simp only [decide_eq_true_eq]
        exact Nat.not_le.mpr (hall x hx)
      have h2 : t.filter (fun e => N < e.1) = t := by
        rw [List.filter_eq_self]
        intro x hx
        simp only [decide_eq_true_eq]
        exact hall x hx
      rw [List.filter_cons_of_neg (by simpa using hN),
        List.filter_cons_of_pos (by simpa using hlt), h1, h2]
      simp

/-- C1: for every partition and every sequence of successful appends to
the Key Change Log, reading all entries from offset 0 yields the whole
partition, whose offsets are the contiguous, strictly increasing range
1..M with no missing and no duplicate offsets; a consumer that has
processed offset N resumes at N + 1: the entries it has processed
(offset at most N) followed by the entries ReadSince(N) returns are
exactly the whole partition, so nothing is skipped and nothing is seen
twice. -/
theorem keyChangeLog_offsets_gapless (ops : List (String × String)) (p : String)
    (N : Nat) :
    readSince (appendAll emptyKeyChangeLog ops) p 0
        = (appendAll emptyKeyChangeLog ops).entries p
    ∧ ((appendAll emptyKeyChangeLog ops).entries p).map Prod.fst
        = List.range' 1 ((appendAll emptyKeyChangeLog ops).entries p).length
    ∧ readSince (appendAll emptyKeyChangeLog ops) p N
        = ((appendAll emptyKeyChangeLog ops).entries p).filter (fun e => N + 1 ≤ e.1)
    ∧ ((appendAll emptyKeyChangeLog ops).entries p).filter (fun e => e.1 ≤ N)
        ++ readSince (appendAll emptyKeyChangeLog ops) p N
        = (appendAll emptyKeyChangeLog ops).entries p := by
  have hinv : OffsetsContiguous (appendAll emptyKeyChangeLog ops) :=
    offsetsContiguous_appendAll ops emptyKeyChangeLog offsetsContiguous_empty
  set st := appendAll emptyKeyChangeLog ops with hst
  have hlen : (st.entries p).map Prod.fst = List.range' 1 (st.entries p).length := by
    rw [entries_length_eq_nextOffset st hinv p]
    exact hinv p
  refine ⟨?_, hlen, ?_, ?_⟩
  · rw [readSince, List.filter_eq_self]
    intro e he
    simp only [decide_eq_true_eq]
    exact offset_pos_of_mem st hinv p e he
  · rw [readSince]
    apply List.filter_congr
    intro e _
    simp only [decide_eq_decide]
    omega
  · exact filter_le_append_filter_gt (st.entries p) 1 N hlen

/-- C8: ReadSince(partition, N) returns exactly the entries of the
partition whose offset is strictly greater than N, in ascending offset
order, and restarting consumption from any later offset M gives the
same entries as filtering the original result. -/
theorem readSince_exact (ops : List (String × String)) (p : String) (N : Nat) :
    (∀ e, e ∈ readSince (appendAll emptyKeyChangeLog ops) p N
        ↔ e ∈ (appendAll emptyKeyChangeLog ops).entries p ∧ N < e.1)
    ∧ (readSince (appendAll emptyKeyChangeLog ops) p N).Pairwise
        (fun a b => a.1 < b.1)
    ∧ ∀ M, N ≤ M →
        readSince (appendAll emptyKeyChangeLog ops) p M
          = (readSince (appendAll emptyKeyChangeLog ops) p N).filter
              (fun e => M < e.1) := by
  have hinv : OffsetsContiguous (appendAll emptyKeyChangeLog ops) :=
    offsetsContiguous_appendAll ops emptyKeyChangeLog offsetsContiguous_empty
  set st := appendAll emptyKeyChangeLog ops with hst
  refine ⟨?_, ?_, ?_⟩
  · intro e
    simp [readSince]
  · have hpair : (st.entries p).Pairwise (fun a b => a.1 < b.1) := by
      have h1 : ((st.entries p).map Prod.fst).Pairwise (· < ·) := by
        rw [hinv p]
        exact List.pairwise_lt_range' 1 (st.nextOffset p)
      exact List.pairwise_map.mp h1
    exact List.Pairwise.sublist (List.filter_sublist _) hpair
  · intro M hNM
    rw [readSince, readSince, List.filter_filter]
    apply List.filter_congr
    intro e _
    by_cases hM : M < e.1
    · have hN : N < e.1 := Nat.lt_of_le_of_lt hNM hM
      simp [hM, hN]
    · simp [hM]

/-- C8 witness: consumption restarted from a later offset on a concrete
log equals filtering the earlier read. -/
theorem readSince_exact_witness :
    readSince (appendAll emptyKeyChangeLog [("p", "u1"), ("p", "u2")]) "p" 2
      = (readSince (appendAll emptyKeyChangeLog [("p", "u1"), ("p", "u2")])
          "p" 1).filter (fun e => 2 < e.1) :=
  (readSince_exact [("p", "u1"), ("p", "u2")] "p" 1).2.2 2 (by omega)

/-! ## Lemmas about the one-time key store -/

theorem claimOneTimeKeys_of_empty (st : OneTimeKeyStore) (u d a : String)
    (h : st.keys (u, d, a) = []) : claimOneTimeKeys st u d a = (none, st) := by
  simp [claimOneTimeKeys, h]

theorem claimRepeatedly_of_empty (u d a : String) (n : Nat) :
    ∀ st : OneTimeKeyStore, st.keys (u, d, a) = [] →
      claimRepeatedly u d a n st = (List.replicate n none, st) := by
  induction n with
  | zero => intro st _; simp [claimRepeatedly]
  | succ m ih =>
    intro st h
    simp only [claimRepeatedly, claimOneTimeKeys_of_empty st u d a h, ih st h,
      List.replicate_succ]

theorem countP_isSome_replicate_none (m : Nat) :
    (List.replicate m (none : Option (String × String))).countP
      (fun r => r.isSome) = 0 := by
  rw [List.countP_replicate]
  simp

/-- C2: concurrent claims are serialized by the transaction isolation of
the store, so N concurrent claims against a tuple holding exactly one
remaining one-time key behave as N sequential claims: the first call
receives the key (which is deleted in the same step), the other N - 1
observe an empty result, exactly one call succeeds, and no key remains
afterwards. -/
theorem claim_exactly_once (st : OneTimeKeyStore) (u d a : String)
    (k : String × String) (n : Nat) (hk : st.keys (u, d, a) = [k]) (hn : 1 ≤ n) :
    (claimRepeatedly u d a n st).1 = some k :: List.replicate (n - 1) none
    ∧ (claimRepeatedly u d a n st).2.keys (u, d, a) = []
    ∧ (claimRepeatedly u d a n st).1.countP (fun r => r.isSome) = 1 := by
  obtain ⟨m, rfl⟩ : ∃ m, n = m + 1 := ⟨n - 1, by omega⟩
  have hc : claimOneTimeKeys st u d a
      = (some k, ⟨fun t => if t = (u, d, a) then [] else st.keys t⟩) := by
    simp [claimOneTimeKeys, hk]
  have hempty :
      (OneTimeKeyStore.mk (fun t => if t = (u, d, a) then [] else st.keys t)).keys
        (u, d, a) = [] := by
    simp
  have hrep := claimRepeatedly_of_empty u d a m _ hempty
  refine ⟨?_, ?_, ?_⟩
  · simp only [claimRepeatedly, hc, hrep, Nat.add_sub_cancel]
  · simp [claimRepeatedly, hc, hrep]
  · simp only [claimRepeatedly, hc, hrep]
    rw [List.countP_cons_of_pos _ _ (by simp)]
    rw [countP_isSome_replicate_none]

/-- C2 witness: three claims against a store holding exactly one key for
the tuple return the key once and two empty results. -/
theorem claim_exactly_once_witness :
    (claimRepeatedly "u" "d" "alg" 3
        (OneTimeKeyStore.mk
          (fun t => if t = ("u", "d", "alg") then [("kid", "kjson")] else []))).1
      = some ("kid", "kjson") :: List.replicate 2 none :=
  (claim_exactly_once
    (OneTimeKeyStore.mk
      (fun t => if t = ("u", "d", "alg") then [("kid", "kjson")] else []))
    "u" "d" "alg" ("kid", "kjson") 3 (by simp) (by omega)).1

/-- C7: claiming against a tuple with no remaining one-time keys returns
an empty result (not an error) and leaves the store untouched; when keys
remain, the claim returns the selected key, deletes exactly that key
from the tuple in the same atomic step, and leaves every other tuple
unchanged. -/
theorem claim_empty_or_atomic_delete (st : OneTimeKeyStore) (u d a : String) :
    (st.keys (u, d, a) = [] → claimOneTimeKeys st u d a = (none, st))
    ∧ ∀ k rest, st.keys (u, d, a) = k :: rest →
        (claimOneTimeKeys st u d a).1 = some k
        ∧ (claimOneTimeKeys st u d a).2.keys (u, d, a) = rest
        ∧ ∀ t, t ≠ (u, d, a) → (claimOneTimeKeys st u d a).2.keys t = st.keys t := by
  refine ⟨claimOneTimeKeys_of_empty st u d a, ?_⟩
  intro k rest hk
  refine ⟨?_, ?_, ?_⟩
  · simp [claimOneTimeKeys, hk]
  · simp [claimOneTimeKeys, hk]
  · intro t ht
    simp [claimOneTimeKeys, hk, ht]

/-- C7 witness: a claim against an empty tuple returns the empty result
and the unchanged store. -/
theorem claim_empty_or_atomic_delete_witness :
    claimOneTimeKeys (OneTimeKeyStore.mk (fun _ => [])) "u" "d" "alg"
      = (none, OneTimeKeyStore.mk (fun _ => [])) :=
  (claim_empty_or_atomic_delete (OneTimeKeyStore.mk (fun _ => [])) "u" "d" "alg").1
    rfl

/-! ## Lemmas about the device key store -/

theorem upsertDeviceKeys_noop (st : KeyDatabase) (u d kj dn : String) (sid : Nat)
    (h : st.deviceKeys (u, d) = some (kj, dn, sid)) :
    upsertDeviceKeys st u d kj dn = (sid, st) := by
  simp [upsertDeviceKeys, h]

theorem upsertDeviceKeys_changed (st : KeyDatabase) (u d kj dn : String)
    (h : ∀ sid, st.deviceKeys (u, d) ≠ some (kj, dn, sid)) :
    upsertDeviceKeys st u d kj dn = upsertFresh st u d kj dn := by
  rw [upsertDeviceKeys]
  cases hsd : st.deviceKeys (u, d) with
  | none => rfl
  | some v =>
    obtain ⟨kj0, dn0, sid0⟩ := v
    dsimp only
    rw [if_neg]
    rintro ⟨rfl, rfl⟩
    exact h sid0 hsd

theorem upsertDeviceKeys_stores (st : KeyDatabase) (u d kj dn : String) :
    (upsertDeviceKeys st u d kj dn).2.deviceKeys (u, d)
      = some (kj, dn, (upsertDeviceKeys st u d kj dn).1) := by
  rw [upsertDeviceKeys]
  cases hsd : st.deviceKeys (u, d) with
  | none => simp [upsertFresh]
  | some v =>
    obtain ⟨kj0, dn0, sid0⟩ := v
    dsimp only
    by_cases hc : kj0 = kj ∧ dn0 = dn
    · obtain ⟨rfl, rfl⟩ := hc
      rw [if_pos ⟨rfl, rfl⟩]
      exact hsd
    · rw [if_neg hc]
      simp [upsertFresh]

theorem snoc_ne_self (l : List (Nat × String)) (x : Nat × String) : l ++ [x] ≠ l := by
  intro h
  have := congrArg List.length h
  simp at this

/-- C4: UpsertDeviceKeys is idempotent on identical content: a second
call with the same key bundle returns the same streamID and leaves the
whole database state (stored keys, streamID counter and change log)
unchanged; a call whose content differs from what is stored allocates
the next streamID for the user, returns it, records it in the counter
and appends exactly one change-log entry for that user. -/
theorem upsertDeviceKeys_idempotent (st : KeyDatabase) (u d kj dn : String) :
    upsertDeviceKeys (upsertDeviceKeys st u d kj dn).2 u d kj dn
      = upsertDeviceKeys st u d kj dn
    ∧ ((∀ sid, st.deviceKeys (u, d) ≠ some (kj, dn, sid)) →
        (upsertDeviceKeys st u d kj dn).1 = st.streamIDCounter u + 1
        ∧ (upsertDeviceKeys st u d kj dn).2.streamIDCounter u
            = st.streamIDCounter u + 1
        ∧ (upsertDeviceKeys st u d kj dn).2.keyChanges.entries keyChangePartition
            = st.keyChanges.entries keyChangePartition
              ++ [(st.keyChanges.nextOffset keyChangePartition + 1, u)]) := by
  constructor
  · have hs := upsertDeviceKeys_stores st u d kj dn
    rw [upsertDeviceKeys_noop _ u d kj dn _ hs]
  · intro h
    rw [upsertDeviceKeys_changed st u d kj dn h]
    refine ⟨rfl, ?_, ?_⟩
    · simp [upsertFresh]
    · simp [upsertFresh, appendKeyChange]

/-- C4 witness: uploading a bundle to an empty database allocates
streamID 1 and appends one change-log entry; re-uploading the identical
bundle is a no-op. -/
theorem upsertDeviceKeys_idempotent_witness :
    upsertDeviceKeys
        (upsertDeviceKeys
          (KeyDatabase.mk (fun _ => none) (fun _ => 0) emptyKeyChangeLog)
          "u" "d" "kj" "dn").2 "u" "d" "kj" "dn"
      = upsertDeviceKeys
          (KeyDatabase.mk (fun _ => none) (fun _ => 0) emptyKeyChangeLog)
          "u" "d" "kj" "dn"
    ∧ (upsertDeviceKeys
        (KeyDatabase.mk (fun _ => none) (fun _ => 0) emptyKeyChangeLog)
        "u" "d" "kj" "dn").1 = 1 :=
  ⟨(upsertDeviceKeys_idempotent
      (KeyDatabase.mk (fun _ => none) (fun _ => 0) emptyKeyChangeLog)
      "u" "d" "kj" "dn").1,
   ((upsertDeviceKeys_idempotent
      (KeyDatabase.mk (fun _ => none) (fun _ => 0) emptyKeyChangeLog)
      "u" "d" "kj" "dn").2 (by simp)).1⟩

/-- C3: an aborted compound transaction leaves the visible database
(both the key store and the change log) exactly as it was; for any
transaction outcome, the device key row changed if and only if the
change log of the partition changed, so the store and the log never
disagree; a committed upsert whose content differs from what is stored
appends exactly one change-log entry, for exactly that user, in the
same transaction; and a committed delete of an existing row removes the
row and likewise appends exactly one change-log entry for the user in
the same transaction. -/
theorem compound_write_atomicity (st : KeyDatabase) (u d kj dn : String)
    (o : TxnOutcome) :
    (∀ mutation, runKeyMutationTxn st mutation TxnOutcome.abort = st)
    ∧ ((runKeyMutationTxn st (fun s => (upsertDeviceKeys s u d kj dn).2) o).deviceKeys
          (u, d) ≠ st.deviceKeys (u, d)
        ↔ (runKeyMutationTxn st (fun s => (upsertDeviceKeys s u d kj dn).2)
              o).keyChanges.entries keyChangePartition
            ≠ st.keyChanges.entries keyChangePartition)
    ∧ ((∀ sid, st.deviceKeys (u, d) ≠ some (kj, dn, sid)) →
        (runKeyMutationTxn st (fun s => (upsertDeviceKeys s u d kj dn).2)
            TxnOutcome.commit).keyChanges.entries keyChangePartition
          = st.keyChanges.entries keyChangePartition
            ++ [(st.keyChanges.nextOffset keyChangePartition + 1, u)])
    ∧ (∀ v, st.deviceKeys (u, d) = some v →
        (deleteDeviceKeys st u d).deviceKeys (u, d) = none
        ∧ (deleteDeviceKeys st u d).keyChanges.entries keyChangePartition
            = st.keyChanges.entries keyChangePartition
              ++ [(st.keyChanges.nextOffset keyChangePartition + 1, u)]) := by
  refine ⟨fun _ => rfl, ?_, ?_, ?_⟩
  · cases o with
    | abort => simp [runKeyMutationTxn]
    | commit =>
      simp only [runKeyMutationTxn]
      by_cases hsame : ∃ sid, st.deviceKeys (u, d) = some (kj, dn, sid)
      · obtain ⟨sid, hsd⟩ := hsame
        rw [upsertDeviceKeys_noop st u d kj dn sid hsd]
        simp
      · push_neg at hsame
        rw [upsertDeviceKeys_changed st u d kj dn hsame]
        constructor
        · intro _
          simp only [upsertFresh, appendKeyChange, eq_self_iff_true, if_true]
          exact snoc_ne_self _ _
        · intro _
          simp only [upsertFresh, eq_self_iff_true, if_true]
          intro hcontra
          exact hsame (st.streamIDCounter u + 1) hcontra.symm
  · intro h
    simp only [runKeyMutationTxn]
    rw [upsertDeviceKeys_changed st u d kj dn h]
    simp [upsertFresh, appendKeyChange]
  · intro v hv
    constructor
    · simp [deleteDeviceKeys, hv]
    · simp [deleteDeviceKeys, hv, appendKeyChange]

/-- C3 witness: aborting an upsert transaction on a concrete database
leaves it unchanged. -/
theorem compound_write_atomicity_witness :
    runKeyMutationTxn
        (KeyDatabase.mk (fun _ => none) (fun _ => 0) emptyKeyChangeLog)
        (fun s => (upsertDeviceKeys s "u" "d" "kj" "dn").2) TxnOutcome.abort
      = KeyDatabase.mk (fun _ => none) (fun _ => 0) emptyKeyChangeLog :=
  (compound_write_atomicity
    (KeyDatabase.mk (fun _ => none) (fun _ => 0) emptyKeyChangeLog)
    "u" "d" "kj" "dn" TxnOutcome.abort).1 _

/-! ## Lemmas about the repartitioning migration -/

theorem refactorKeyChanges_idem (st : MigrationState) :
    refactorKeyChanges (refactorKeyChanges st) = refactorKeyChanges st := by
  by_cases h : st.applied
  · simp [refactorKeyChanges, h]
  · simp [refactorKeyChanges, h]

/-- C6: the repartitioning migration is lossless and re-run-safe: on a
legacy single-stream log with M entries it produces a partitioned log
with exactly M entries, carrying the same user IDs in the same relative
order under fresh gapless offsets 1..M, and running the migration again
(for example after an interruption followed by a restart, the delta
itself being transactional and tracked) changes nothing — this holds
for the fresh legacy database and for every intermediate state. -/
theorem migration_lossless_rerun_safe (l : List String) :
    (refactorKeyChanges (MigrationState.mk l [] false)).partitionedLog.length
        = l.length
    ∧ (refactorKeyChanges (MigrationState.mk l [] false)).partitionedLog.map
        Prod.snd = l
    ∧ (refactorKeyChanges (MigrationState.mk l [] false)).partitionedLog.map
        Prod.fst = List.range' 1 l.length
    ∧ ∀ st : MigrationState,
        refactorKeyChanges (refactorKeyChanges st) = refactorKeyChanges st := by
  refine ⟨?_, ?_, ?_, refactorKeyChanges_idem⟩
  · simp [refactorKeyChanges]
  · simp only [refactorKeyChanges, Bool.false_eq_true, if_neg, if_false]
    rw [List.map_map]
    have hcomp :
        (Prod.snd ∘ fun e : Nat × String => (e.1 + 1, e.2)) = Prod.snd := rfl
    rw [hcomp, List.enum_map_snd]
  · simp only [refactorKeyChanges, Bool.false_eq_true, if_neg, if_false]
    rw [List.map_map]
    have hcomp :
        (Prod.fst ∘ fun e : Nat × String => (e.1 + 1, e.2))
          = (fun i => i + 1) ∘ Prod.fst := rfl
    rw [hcomp, ← List.map_map, List.enum_map_fst, List.range'_eq_map_range]
    apply List.map_congr_left
    intro i _
    omega

/-! ## Database construction refuses to start on migration failure -/

/-- C5: when the migration run `m.RunDeltas(db, dbProperties)` returns
an error, `NewDatabase` propagates exactly that error and returns no
database handle, regardless of the outcomes of the later preparation
steps — the preceding constructor steps having succeeded, no partially
migrated handle is ever produced. -/
theorem newDatabase_fails_on_migration_error {E DB T : Type}
    (sqlutilOpen : Except E DB)
    (f1 f2 f3 f4 f5 f6 : DB → Except E T)
    (runDeltas : DB → Except E Unit)
    (keyChangesPrepare : T → Except E Unit)
    (partitionOffsetsPrepare : DB → Except E Unit)
    (db : DB) (t1 t2 t3 t4 t5 t6 : T) (e : E)
    (h0 : sqlutilOpen = Except.ok db)
    (h1 : f1 db = Except.ok t1) (h2 : f2 db = Except.ok t2)
    (h3 : f3 db = Except.ok t3) (h4 : f4 db = Except.ok t4)
    (h5 : f5 db = Except.ok t5) (h6 : f6 db = Except.ok t6)
    (hm : runDeltas db = Except.error e) :
    NewDatabase sqlutilOpen f1 f2 f3 f4 f5 f6 runDeltas keyChangesPrepare
        partitionOffsetsPrepare
      = Except.error e := by
  rw [NewDatabase.eq_def, h0]
  dsimp only
  rw [h1]
  dsimp only
  rw [h2]
  dsimp only
  rw [h3]
  dsimp only
  rw [h4]
  dsimp only
  rw [h5]
  dsimp only
  rw [h6]
  dsimp only
  rw [hm]

/-- C5 witness: with every constructor step succeeding and the migration
run failing, `NewDatabase` returns exactly the migration error. -/
theorem newDatabase_fails_on_migration_error_witness :
    NewDatabase
        (Except.ok () : Except String Unit)
        (fun _ => (Except.ok () : Except String Unit)) (fun _ => Except.ok ())
        (fun _ => Except.ok ()) (fun _ => Except.ok ()) (fun _ => Except.ok ())
        (fun _ => Except.ok ()) (fun _ => Except.error "migration failed")
        (fun _ => Except.ok ()) (fun _ => Except.ok ())
      = Except.error "migration failed" :=
  newDatabase_fails_on_migration_error
    (Except.ok ()) (fun _ => Except.ok ()) (fun _ => Except.ok ())
    (fun _ => Except.ok ()) (fun _ => Except.ok ()) (fun _ => Except.ok ())
    (fun _ => Except.ok ()) (fun _ => Except.error "migration failed")
    (fun _ => Except.ok ()) (fun _ => Except.ok ())
    () () () () () () () "migration failed"
    rfl rfl rfl rfl rfl rfl rfl rfl

/-! ## Lemmas about the password login flow -/

theorem asciiToLower_idem (c : Nat) :
    asciiToLower (asciiToLower c) = asciiToLower c := by
  unfold asciiToLower
  by_cases h : 65 ≤ c ∧ c ≤ 90
  · rw [if_pos h, if_neg (by omega)]
  · rw [if_neg h, if_neg h]

theorem splitID_localpart_subset (g : Nat) (s lp dom : List Nat)
    (h : splitID g s = Except.ok (lp, dom)) : ∀ c ∈ lp, c ∈ s := by
  cases s with
  | nil => simp [splitID] at h
  | cons c0 rest =>
    rw [splitID] at h
    by_cases hg : c0 = g
    · rw [if_pos hg] at h
      by_cases hc : rest.contains colonChar
      · rw [if_pos hc] at h
        have hlp : lp = rest.takeWhile (fun x => x ≠ colonChar) := by
          cases h
          rfl
        subst hlp
        intro x hx
        exact List.mem_cons_of_mem c0 (List.takeWhile_subset _ hx)
      · rw [if_neg hc] at h
        cases h
    · rw [if_neg hg] at h
      cases h

theorem parseUsernameParam_localpart_subset (s sn lp : List Nat)
    (h : parseUsernameParam s sn = Except.ok lp) : ∀ c ∈ lp, c ∈ s := by
  rw [parseUsernameParam] at h
  by_cases hat : s.head? = some atSign
  · rw [if_pos hat] at h
    cases hsplit : splitID atSign s with
    | error msg => rw [hsplit] at h; cases h
    | ok v =>
      obtain ⟨lp0, dom0⟩ := v
      rw [hsplit] at h
      dsimp only at h
      by_cases hdom : dom0 = sn
      · rw [if_pos hdom] at h
        have hlp : lp = lp0 := by cases h; rfl
        subst hlp
        exact splitID_localpart_subset atSign s lp dom0 hsplit
      · rw [if_neg hdom] at h
        cases h
  · rw [if_neg hat] at h
    have hlp : lp = s := by cases h; rfl
    subst hlp
    intro c hc
    exact hc

/-- Localparts parsed from an already lowercased username are fixed
points of lowercasing. -/
theorem strToLower_localpart_fixed (raw sn lp : List Nat)
    (h : parseUsernameParam (strToLower raw) sn = Except.ok lp) :
    strToLower lp = lp := by
  have hmem := parseUsernameParam_localpart_subset (strToLower raw) sn lp h
  rw [strToLower]
  have : ∀ c ∈ lp, asciiToLower c = c := by
    intro c hc
    obtain ⟨b, _, rfl⟩ := List.mem_map.mp (hmem c hc)
    exact asciiToLower_idem b
  calc lp.map asciiToLower = lp.map id := List.map_congr_left this
    _ = lp := List.map_id lp

/-- C9: password login does not reveal account existence; a login
request whose account does not exist (both the initial and the fallback
lookup report `sql.ErrNoRows`) and a login request whose password is
wrong (the lookup reports a non-ErrNoRows error) receive the identical
response: HTTP 403 Forbidden with the message "The username or password
was incorrect or the account does not exist.". -/
theorem login_no_account_vs_wrong_password
    (serverName uA pA uB pB : List Nat)
    (gA gB : List Nat → List Nat → AccountResult)
    (lpA lpB : List Nat)
    (hA0 : uA ≠ [])
    (hAparse : parseUsernameParam (strToLower uA) serverName = Except.ok lpA)
    (hA1 : gA (strToLower lpA) pA = AccountResult.errNoRows)
    (hA2 : gA lpA pA = AccountResult.errNoRows)
    (hB0 : uB ≠ [])
    (hBparse : parseUsernameParam (strToLower uB) serverName = Except.ok lpB)
    (hB1 : gB (strToLower lpB) pB = AccountResult.errOther) :
    loginTypePassword serverName gA uA pA = LoginResult.failure forbiddenResponse
    ∧ loginTypePassword serverName gB uB pB = LoginResult.failure forbiddenResponse
    ∧ loginTypePassword serverName gA uA pA
        = loginTypePassword serverName gB uB pB := by
  have hAnil : strToLower uA ≠ [] := by
    rw [strToLower]
    simpa using hA0
  have hBnil : strToLower uB ≠ [] := by
    rw [strToLower]
    simpa using hB0
  have hA : loginTypePassword serverName gA uA pA
      = LoginResult.failure forbiddenResponse := by
    rw [loginTypePassword]
    rw [if_neg hAnil, hAparse]
    dsimp only
    rw [hA1]
    dsimp only
    rw [hA2]
  have hB : loginTypePassword serverName gB uB pB
      = LoginResult.failure forbiddenResponse := by
    rw [loginTypePassword]
    rw [if_neg hBnil, hBparse]
    dsimp only
    rw [hB1]
  exact ⟨hA, hB, hA.trans hB.symm⟩

/-- C9 witness: a concrete nonexistent account and a concrete
wrong-password attempt receive the same Forbidden response. -/
theorem login_no_account_vs_wrong_password_witness :
    loginTypePassword [115] (fun _ _ => AccountResult.errNoRows) [97] [112]
      = loginTypePassword [115] (fun _ _ => AccountResult.errOther) [98] [113] :=
  (login_no_account_vs_wrong_password [115] [97] [112] [98] [113]
    (fun _ _ => AccountResult.errNoRows) (fun _ _ => AccountResult.errOther)
    [97] [98]
    (by decide) rfl rfl rfl (by decide) rfl rfl).2.2

/-- C10: the fallback account lookup in the login flow is redundant:
because the username is lowercased before the localpart is parsed, the
localpart is a fixed point of lowercasing, so the two
`GetAccountByPassword` calls receive identical arguments; the lookup
function being a pure (deterministic) function, whenever the first
lookup reports `sql.ErrNoRows` the fallback does too and the login
returns the Forbidden response, never a success. -/
theorem login_fallback_redundant (serverName raw pw : List Nat)
    (g : List Nat → List Nat → AccountResult) (lp : List Nat)
    (hne : raw ≠ [])
    (hparse : parseUsernameParam (strToLower raw) serverName = Except.ok lp) :
    strToLower lp = lp
    ∧ (g (strToLower lp) pw = AccountResult.errNoRows →
        loginTypePassword serverName g raw pw
          = LoginResult.failure forbiddenResponse) := by
  have hfix : strToLower lp = lp := strToLower_localpart_fixed raw serverName lp hparse
  refine ⟨hfix, fun hrows => ?_⟩
  have hnil : strToLower raw ≠ [] := by
    rw [strToLower]
    simpa using hne
  rw [hfix] at hrows
  rw [loginTypePassword]
  rw [if_neg hnil, hparse]
  dsimp only
  rw [hfix, hrows]

/-- C10 witness: for a concrete full user ID the parsed localpart is
already lowercase and an ErrNoRows lookup yields the Forbidden
response. -/
theorem login_fallback_redundant_witness :
    strToLower [97] = [97]
    ∧ loginTypePassword [115] (fun _ _ => AccountResult.errNoRows)
        [64, 97, 58, 115] [112]
      = LoginResult.failure forbiddenResponse :=
  ⟨(login_fallback_redundant [115] [64, 97, 58, 115] [112]
      (fun _ _ => AccountResult.errNoRows) [97] (by decide) rfl).1,
   (login_fallback_redundant [115] [64, 97, 58, 115] [112]
      (fun _ _ => AccountResult.errNoRows) [97] (by decide) rfl).2 rfl⟩

end Dendrite
